import Mathlib

/-
A shallow embedding of `src/vector.h`: the growable contiguous buffer
`Vector<T>` together with the raw storage it owns (`RawMemory<T>`).

Modelling decisions:

* `RawMemory<T>` owns `capacity_` uninitialized slots.  A slot either holds a
  live, constructed `T` value or is raw (uninitialized / destroyed) memory.
  We model the whole storage as `slots : List (Option α)` whose length is
  `capacity_`; `some a` is a live value, `none` a raw slot.  `size_` is kept
  verbatim.

* The element type `T` is a template parameter whose copy constructor, move
  constructor/assignment and in-place constructor may throw.  An `Ops α`
  record carries the compile-time facts the source inspects
  (`std::is_nothrow_move_constructible_v<T>`, `std::is_copy_constructible_v<T>`)
  and run-time oracles: which values fail to copy or to move, and what value a
  moved-from object is left holding (`movedFrom`).  A successful copy yields an
  equal value; a failed move leaves its source unchanged (the throw happens
  before the transfer).

* Each throwing C++ member function becomes a function into
  `Except (Vector α) (Vector α)`: `Except.error e` means the call threw and
  the buffer's observable state at propagation time is `e`;
  `Except.ok w` is the state after a successful return.  In-place construction
  from `args...` is modelled by an `mk : Option α` argument: `none` means the
  construction throws, `some x` that it produces `x`.
-/

set_option autoImplicit false

namespace CppVector

variable {α : Type}

/-- Compile-time traits and run-time failure behaviour of the element type
`T`.  `nothrowMove` is `std::is_nothrow_move_constructible_v<T>`, `copyable`
is `std::is_copy_constructible_v<T>`.  `copyFails a` (resp. `moveFails a`)
says that copying (resp. moving) a value equal to `a` throws; `movedFrom a`
is the value a moved-from source object holds after a successful move. -/
structure Ops (α : Type) where
  nothrowMove : Bool
  copyable : Bool
  copyFails : α → Bool
  moveFails : α → Bool
  movedFrom : α → α

/-- The condition
`std::is_nothrow_move_constructible_v<T> || !std::is_copy_constructible_v<T>`
selecting the move-migration path in `Reserve`, `EmplaceBack` and `Emplace`. -/
def useMove (ops : Ops α) : Bool := ops.nothrowMove || !ops.copyable

/-- Observable state of a `Vector<T>`: the slots of the owned `RawMemory`
(`slots.length` is `data_.Capacity()`) and the live-element count `size_`. -/
structure Vector (α : Type) where
  slots : List (Option α)
  size_ : Nat
  deriving DecidableEq

/-- `Capacity()`: the capacity of the owned raw storage. -/
def Vector.Capacity (v : Vector α) : Nat := v.slots.length

/-- `Size()`. -/
def Vector.Size (v : Vector α) : Nat := v.size_

/-- The sequence of live element values in the range `[0, size_)`, in storage
order: what iterating from `begin()` to `end()` yields. -/
def live (v : Vector α) : List α := (v.slots.take v.size_).filterMap id

/-- `operator[]`-style read of slot `i` (`none` if the slot holds no live
value or is out of range). -/
def read (v : Vector α) (i : Nat) : Option α := v.slots.getD i none

/-- The container invariant (spec section 3): `0 ≤ size ≤ capacity`, and the
slots `[0, size)` hold live values while `[size, capacity)` is raw memory. -/
def WF (v : Vector α) : Prop :=
  v.size_ ≤ v.Capacity ∧ (live v).length = v.size_ ∧
    v.slots = (live v).map some ++ List.replicate (v.Capacity - v.size_) none

/-- A default-constructed `Vector`: null buffer, zero size and capacity. -/
def emptyVec : Vector α := ⟨[], 0⟩

/-- Fresh storage of capacity `c` whose first slots were filled with the
values `l` (constructed one by one) and whose tail is uninitialized. -/
def mkSlots (l : List α) (c : Nat) : List (Option α) :=
  l.map some ++ List.replicate (c - l.length) none

/-- The growth policy `size_ == 0 ? 1 : size_ * 2` used by `EmplaceBack` and
`Emplace` when the buffer is full. -/
def newCapOf (v : Vector α) : Nat := if v.size_ = 0 then 1 else v.size_ * 2

/-- `std::uninitialized_move_n` over the given source values, moving them one
by one into fresh storage.  `Except.ok l` means every move succeeded and the
new storage holds `l`; `Except.error k` means the moves of the first `k`
values succeeded (leaving those sources moved-from), the `k`-th move threw,
and the partially built destination was destroyed. -/
def moveMigrate (ops : Ops α) : List α → Except Nat (List α)
  | [] => Except.ok []
  | a :: l =>
    if ops.moveFails a then Except.error 0
    else
      match moveMigrate ops l with
      | Except.ok l2 => Except.ok (a :: l2)
      | Except.error k => Except.error (k + 1)

/-- The buffer as observable after `std::uninitialized_move_n` threw having
already moved the first `k` live elements out: those slots now hold their
moved-from residue, everything else is untouched. -/
def huskState (ops : Ops α) (v : Vector α) (k : Nat) : Vector α :=
  ⟨((live v).take k).map (fun a => some (ops.movedFrom a)) ++ v.slots.drop k,
    v.size_⟩

/-- `EmplaceBack(args...)` (vector.h lines 300-321).  `mk` models constructing
`T(std::forward<Args>(args)...)`.  With spare capacity the element is built
directly in slot `size_`; otherwise fresh storage of `newCapOf` slots is
allocated, the new element is constructed at its final position first, and the
old elements are migrated (moved when `useMove`, copied otherwise; a failed
copy-migration destroys only the partial copies, leaving the old buffer
untouched). -/
def Vector.EmplaceBack (ops : Ops α) (mk : Option α) (v : Vector α) :
    Except (Vector α) (Vector α) :=
  if v.size_ < v.Capacity then
    match mk with
    | none => Except.error v
    | some x => Except.ok ⟨v.slots.set v.size_ (some x), v.size_ + 1⟩
  else
    match mk with
    | none => Except.error v
    | some x =>
      if useMove ops then
        match moveMigrate ops (live v) with
        | Except.error k => Except.error (huskState ops v k)
        | Except.ok l => Except.ok ⟨mkSlots (l ++ [x]) (newCapOf v), v.size_ + 1⟩
      else if (live v).any ops.copyFails then Except.error v
      else Except.ok ⟨mkSlots (live v ++ [x]) (newCapOf v), v.size_ + 1⟩

/-- Constructing `T(value)` from an lvalue, as `PushBack(const T&)` does when
it forwards to `EmplaceBack`: a copy that yields an equal value or throws. -/
def mkOf (ops : Ops α) (x : α) : Option α :=
  if ops.copyFails x then none else some x

/-- `PushBack(const T& value)` (lines 208-212): forwards to `EmplaceBack`. -/
def Vector.PushBack (ops : Ops α) (x : α) (v : Vector α) :
    Except (Vector α) (Vector α) :=
  Vector.EmplaceBack ops (mkOf ops x) v

/-- `Reserve(new_capacity)` (lines 251-266): no-op unless the capacity grows;
otherwise migrate all live elements into fresh storage of exactly
`new_capacity` slots (move-preferred, copy-fallback) and swap it in. -/
def Vector.Reserve (ops : Ops α) (newCap : Nat) (v : Vector α) :
    Except (Vector α) (Vector α) :=
  if newCap ≤ v.Capacity then Except.ok v
  else if useMove ops then
    match moveMigrate ops (live v) with
    | Except.error k => Except.error (huskState ops v k)
    | Except.ok l => Except.ok ⟨mkSlots l newCap, v.size_⟩
  else if (live v).any ops.copyFails then Except.error v
  else Except.ok ⟨mkSlots (live v) newCap, v.size_⟩

/-- The backward shift
`std::move_backward(begin() + index, data_ + size_, data_ + size_ + 1)`
performed by `Emplace` with spare capacity: move-assignments at destinations
`j = size_, size_ - 1, ..., index + 1`, each doing `slot j := move(slot (j-1))`
and leaving slot `j-1` holding its moved-from residue.  The counter argument
is the number of move-assignments still to do; `Except.error s` is the state
of the slots when one of the move-assignments threw. -/
def moveBackward (ops : Ops α) (index : Nat) :
    List (Option α) → Nat → Except (List (Option α)) (List (Option α))
  | slots, 0 => Except.ok slots
  | slots, Nat.succ n =>
    match slots.getD (index + n) none with
    | none => Except.ok slots
    | some a =>
      if ops.moveFails a then Except.error slots
      else
        moveBackward ops index
          ((slots.set (index + n + 1) (some a)).set (index + n)
            (some (ops.movedFrom a))) n

/-- `Emplace(pos, args...)` (lines 323-368), with `index = pos - begin()`.
Spare capacity: move-construct the last element into slot `size_`, shift
`[index, size_)` one slot towards the back with `moveBackward` (destroying the
slot-`size_` temporary if the shift throws), destroy slot `index`, then
construct the new element there.  Full: allocate `newCapOf` slots, construct
the new element at its final position `index`, then migrate the prefix
`[0, index)` and the suffix `[index, size_)` around it (move-preferred; the
copy fallback destroys the new element and rethrows on failure, leaving the
old buffer untouched).  The returned iterator is `begin() + index`. -/
def Vector.Emplace (ops : Ops α) (index : Nat) (mk : Option α) (v : Vector α) :
    Except (Vector α) (Vector α) :=
  if v.size_ ≠ v.Capacity then
    if v.size_ = 0 then
      match mk with
      | none => Except.error v
      | some x => Except.ok ⟨v.slots.set index (some x), v.size_ + 1⟩
    else
      match v.slots.getD (v.size_ - 1) none with
      | none => Except.error v
      | some last =>
        if ops.moveFails last then Except.error v
        else
          match moveBackward ops index
              ((v.slots.set v.size_ (some last)).set (v.size_ - 1)
                (some (ops.movedFrom last)))
              (v.size_ - index) with
          | Except.error s => Except.error ⟨s.set v.size_ none, v.size_⟩
          | Except.ok s =>
            match mk with
            | none => Except.error ⟨s.set index none, v.size_⟩
            | some x =>
              Except.ok ⟨(s.set index none).set index (some x), v.size_ + 1⟩
  else
    match mk with
    | none => Except.error v
    | some x =>
      if useMove ops then
        match moveMigrate ops ((live v).take index) with
        | Except.error k => Except.error (huskState ops v k)
        | Except.ok p =>
          match moveMigrate ops ((live v).drop index) with
          | Except.error k => Except.error (huskState ops v (index + k))
          | Except.ok s =>
            Except.ok ⟨mkSlots (p ++ x :: s) (newCapOf v), v.size_ + 1⟩
      else if ((live v).take index).any ops.copyFails then Except.error v
      else if ((live v).drop index).any ops.copyFails then Except.error v
      else
        Except.ok
          ⟨mkSlots ((live v).take index ++ x :: (live v).drop index)
            (newCapOf v), v.size_ + 1⟩

/-- `Insert(pos, const T& value)` (lines 229-233): forwards to `Emplace`,
copy-constructing the new element from `value`. -/
def Vector.Insert (ops : Ops α) (index : Nat) (x : α) (v : Vector α) :
    Except (Vector α) (Vector α) :=
  Vector.Emplace ops index (mkOf ops x) v

/-- `PopBack()` (lines 242-249): destroy the last element and decrement
`size_`, or do nothing if the buffer is empty. -/
def Vector.PopBack (v : Vector α) : Vector α :=
  if v.size_ = 0 then v
  else ⟨v.slots.set (v.size_ - 1) none, v.size_ - 1⟩

/-- The forward shift `std::move(begin() + index + 1, end(), begin() + index)`
performed by `Erase`: move-assignments at destinations
`j = index, index + 1, ...`, each doing `slot j := move(slot (j+1))` and
leaving slot `j+1` holding its moved-from residue.  The counter is the number
of move-assignments still to do. -/
def moveForward (ops : Ops α) :
    Nat → List (Option α) → Nat → Except (List (Option α)) (List (Option α))
  | _, slots, 0 => Except.ok slots
  | j, slots, Nat.succ n =>
    match slots.getD (j + 1) none with
    | none => Except.ok slots
    | some a =>
      if ops.moveFails a then Except.error slots
      else
        moveForward ops (j + 1)
          ((slots.set j (some a)).set (j + 1) (some (ops.movedFrom a))) n

/-- `Erase(pos)` (lines 220-227), with `index = pos - begin()`: shift
`[index + 1, size_)` one slot towards the front, then `PopBack()`.  Returns
`begin() + index` (modelled as the index) together with the new state. -/
def Vector.Erase (ops : Ops α) (index : Nat) (v : Vector α) :
    Except (Vector α) (Nat × Vector α) :=
  match moveForward ops index v.slots (v.size_ - 1 - index) with
  | Except.error s => Except.error ⟨s, v.size_⟩
  | Except.ok s => Except.ok (index, Vector.PopBack ⟨s, v.size_⟩)

/-- `std::copy` of the values `l` into the destination slots starting at `j`:
element-wise copy-assignment, performed left to right.  On a failing copy the
already overwritten prefix stays overwritten (`Except.error` carries the
slots at that point). -/
def copyRange (ops : Ops α) :
    List (Option α) → Nat → List α → Except (List (Option α)) (List (Option α))
  | slots, _, [] => Except.ok slots
  | slots, j, a :: l =>
    if ops.copyFails a then Except.error slots
    else copyRange ops (slots.set j (some a)) (j + 1) l

/-- Pure effect of a fully successful left-to-right write of the values `l`
into the slots starting at position `j`. -/
def fillRange : List (Option α) → Nat → List α → List (Option α)
  | slots, _, [] => slots
  | slots, j, a :: l => fillRange (slots.set j (some a)) (j + 1) l

/-- `std::uninitialized_copy_n` of the values `l` into raw slots starting at
`j`: copy-construction left to right, but on failure the partially built
elements are destroyed again, so the observable slots are exactly the original
ones. -/
def uninitCopyRange (ops : Ops α) (slots : List (Option α)) (j : Nat)
    (l : List α) : Except (List (Option α)) (List (Option α)) :=
  if l.any ops.copyFails then Except.error slots
  else Except.ok (fillRange slots j l)

/-- `std::destroy_n(data_ + j, n)`: slots `[j, j + n)` become raw memory. -/
def setNoneRange : List (Option α) → Nat → Nat → List (Option α)
  | slots, _, 0 => slots
  | slots, j, Nat.succ n => setNoneRange (slots.set j none) (j + 1) n

/-- The copy constructor `Vector(const Vector&)` (lines 138-144): fresh
storage of capacity `other.size_`, then `uninitialized_copy_n` of the `size_`
live values.  On a failing copy the partial copies and the fresh storage are
released and the exception propagates (`Except.error`). -/
def copyCtorV (ops : Ops α) (src : Vector α) : Except Unit (Vector α) :=
  if (live src).any ops.copyFails then Except.error ()
  else Except.ok ⟨mkSlots (live src) src.size_, src.size_⟩

/-- `operator=(const Vector& rhs)` (lines 152-174).  `sameObj` models the
`this != &rhs` self-assignment guard.  If `rhs` does not fit, build a full
copy and swap it in (`this` untouched if that copy throws).  Otherwise reuse
the storage: copy-assign over the common prefix, then either destroy the
excess tail or copy-construct the remaining elements into raw slots. -/
def copyAssign (ops : Ops α) (sameObj : Bool) (v rhs : Vector α) :
    Except (Vector α) (Vector α) :=
  if sameObj then Except.ok v
  else if v.Capacity < rhs.size_ then
    match copyCtorV ops rhs with
    | Except.error _ => Except.error v
    | Except.ok w => Except.ok w
  else if rhs.size_ < v.size_ then
    match copyRange ops v.slots 0 (live rhs) with
    | Except.error s => Except.error ⟨s, v.size_⟩
    | Except.ok s =>
      Except.ok ⟨setNoneRange s rhs.size_ (v.size_ - rhs.size_), rhs.size_⟩
  else
    match copyRange ops v.slots 0 ((live rhs).take v.size_) with
    | Except.error s => Except.error ⟨s, v.size_⟩
    | Except.ok s =>
      match uninitCopyRange ops s v.size_ ((live rhs).drop v.size_) with
      | Except.error s2 => Except.error ⟨s2, v.size_⟩
      | Except.ok s2 => Except.ok ⟨s2, rhs.size_⟩

/-- `Swap(other)` (lines 293-298): exchanges storage and size.  The pair is
(state of `*this` afterwards, state of `other` afterwards). -/
def Vector.Swap (v w : Vector α) : Vector α × Vector α := (w, v)

/-- The move constructor `Vector(Vector&&)` (lines 146-150): default-construct
an empty vector, then `Swap(other)`.  The pair is (the new vector, the state
the moved-from source is left in). -/
def moveCtor (other : Vector α) : Vector α × Vector α := (other, emptyVec)

/-- `operator=(Vector&& rhs)` (lines 176-183): `Swap(rhs)` unless `this` and
`rhs` are the same object.  The pair is (state of `*this` afterwards, state of
`rhs` afterwards). -/
def moveAssign (sameObj : Bool) (v rhs : Vector α) : Vector α × Vector α :=
  if sameObj then (v, rhs) else (rhs, v)

/-- `Resize(new_size)` (lines 191-206).  `dflt` models value-construction
`T()`: `none` if it throws, `some d` if it yields `d`.  Shrinking destroys the
tail; growing reserves and then value-constructs the new slots. -/
def Vector.Resize (ops : Ops α) (dflt : Option α) (n : Nat) (v : Vector α) :
    Except (Vector α) (Vector α) :=
  if n = v.size_ then Except.ok v
  else if n < v.size_ then
    Except.ok ⟨setNoneRange v.slots n (v.size_ - n), n⟩
  else
    match Vector.Reserve ops n v with
    | Except.error e => Except.error e
    | Except.ok w =>
      match dflt with
      | none => Except.error w
      | some d =>
        Except.ok ⟨fillRange w.slots w.size_ (List.replicate (n - w.size_) d), n⟩

/-- A sequence of `PushBack` calls, stopping at the first failure. -/
def appendSeq (ops : Ops α) : List α → Vector α → Except (Vector α) (Vector α)
  | [], v => Except.ok v
  | x :: l, v =>
    match Vector.PushBack ops x v with
    | Except.error e => Except.error e
    | Except.ok w => appendSeq ops l w

/-- The slots carried by either outcome of a shifting helper. -/
def outSlots : Except (List (Option α)) (List (Option α)) → List (Option α)
  | Except.ok s => s
  | Except.error s => s

/-- Capacity never shrinks across the given outcome (successful or thrown). -/
def capMono (v : Vector α) : Except (Vector α) (Vector α) → Prop
  | Except.ok w => v.Capacity ≤ w.Capacity
  | Except.error e => v.Capacity ≤ e.Capacity

/-- `capMono` for `Erase`, whose success carries the returned iterator. -/
def capMonoPair (v : Vector α) : Except (Vector α) (Nat × Vector α) → Prop
  | Except.ok w => v.Capacity ≤ w.2.Capacity
  | Except.error e => v.Capacity ≤ e.Capacity

/-- An element type whose copies and moves never throw and whose moves leave
the source value unchanged (e.g. a trivially copyable type). -/
def ops0 : Ops Nat := ⟨true, true, fun _ => false, fun _ => false, fun a => a⟩

/-- An element type whose copies and moves never throw but whose moves are
destructive: a moved-from object is left holding `0` (like the empty state of
a `std::string`-like type). -/
def ops1 : Ops Nat := ⟨true, true, fun _ => false, fun _ => false, fun _ => 0⟩

instance [DecidableEq α] (v : Vector α) : Decidable (WF v) :=
  inferInstanceAs (Decidable (_ ∧ _ ∧ _))

/-- A buffer holding `[10, 20]` with one spare slot of capacity. -/
def v1 : Vector Nat := ⟨[some 10, some 20, none], 2⟩

/-- What `Emplace(begin(), args)` on `v1` leaves behind when constructing the
new element throws: slot 0 destroyed, the old values shifted up. -/
def e1 : Vector Nat := ⟨[none, some 10, some 20], 2⟩

/-- A buffer holding `[7, 8]` with one spare slot of capacity. -/
def v8 : Vector Nat := ⟨[some 7, some 8, none], 2⟩

/-- What `Emplace(begin(), args)` on `v8` leaves behind when constructing the
new element throws: a destroyed hole inside the live range `[0, size)`. -/
def e8 : Vector Nat := ⟨[none, some 7, some 8], 2⟩

/-- A buffer holding `[10, 20, 30]` with one spare slot of capacity. -/
def v5 : Vector Nat := ⟨[some 10, some 20, some 30, none], 3⟩

/-- Result of `Insert(begin() + 1, 99)` on `v5` for the destructive-move
element type `ops1`: the last slot holds a moved-from residue, not `30`. -/
def w5 : Vector Nat := ⟨[some 10, some 99, some 20, some 0], 4⟩

/-- Result of `Erase(begin() + 1)` on `w5`: `[10, 20, 0]`, not the original
`[10, 20, 30]`. -/
def u5 : Vector Nat := ⟨[some 10, some 20, some 0, none], 3⟩

/-- A buffer holding `[1]`, used as the move-assignment destination. -/
def a3 : Vector Nat := ⟨[some 1], 1⟩

/-- A buffer holding `[2, 3]`, used as the move-assignment source. -/
def b3 : Vector Nat := ⟨[some 2, some 3], 2⟩

/-- A buffer of capacity 2 holding `[1]`. -/
def a4 : Vector Nat := ⟨[some 1, none], 1⟩

/- ------------------------------------------------------------------ -/
/- Theorems.                                                           -/
/- ------------------------------------------------------------------ -/

/-- Setting the slot just past a block `A` inside `A ++ b :: B`. -/
theorem set_junction {β : Type} (A : List β) (b : β) (B : List β) (x : β) :
    (A ++ b :: B).set A.length x = A ++ x :: B := by
  induction A with
  | nil => rfl
  | cons a A ih => exact congrArg (List.cons a) ih

/-- Reading the slot just past a block `A` inside `A ++ b :: B`. -/
theorem getD_junction {β : Type} (A : List β) (b : β) (B : List β) (d : β) :
    (A ++ b :: B).getD A.length d = b := by
  induction A with
  | nil => rfl
  | cons a A ih => exact ih

/-- The count `size_ - 1 - index` of move-assignments done by `Erase` on a
buffer whose live values split as `P ++ x :: rest`. -/
theorem shift_count_eq (p r : Nat) : p + r + 1 - 1 - p = r := by
  rw [Nat.add_sub_cancel, Nat.add_sub_cancel_left]

/-- A size `s` splits at a valid index `i` as prefix, element and suffix. -/
theorem size_split (s i : Nat) (h : i < s) : s = i + (s - 1 - i) + 1 := by
  rw [Nat.add_sub_cancel' (Nat.le_sub_one_of_lt h),
    Nat.sub_add_cancel (Nat.lt_of_le_of_lt (Nat.zero_le i) h)]

/-- Prefix plus suffix of a split at a valid index `i` is `s - 1`. -/
theorem mid_sum_eq (i s : Nat) (h : i < s) : i + (s - 1 - i) = s - 1 :=
  Nat.add_sub_cancel' (Nat.le_sub_one_of_lt h)

/-- One live slot fewer plus one raw slot more restores the capacity. -/
theorem cap_restore (s C i : Nat) (h1 : i < s) (h2 : s ≤ C) :
    i + (s - 1 - i) + (C - s + 1) = C := by
  rw [Nat.add_sub_cancel' (Nat.le_sub_one_of_lt h1), ← Nat.add_assoc,
    Nat.add_right_comm,
    Nat.sub_add_cancel (Nat.lt_of_le_of_lt (Nat.zero_le i) h1),
    Nat.add_sub_cancel' h2]

/-- A clamped prefix plus the corresponding suffix never exceeds the whole. -/
theorem min_add_sub_le (i L : Nat) : min i L + (L - i) ≤ L := by
  by_cases h : i ≤ L
  · rw [Nat.min_eq_left h, Nat.add_sub_cancel' h]
  · rw [Nat.min_eq_right (Nat.le_of_not_le h),
      Nat.sub_eq_zero_of_le (Nat.le_of_not_le h), Nat.add_zero]

/-- The growth policy never shrinks a full buffer's capacity. -/
theorem cap_le_newCap (v : Vector α) (hcap : v.Capacity ≤ v.size_) :
    v.Capacity ≤ newCapOf v := by
  unfold newCapOf
  by_cases hz : v.size_ = 0
  · rw [if_pos hz]
    exact le_trans hcap (le_trans (le_of_eq hz) (Nat.zero_le 1))
  · rw [if_neg hz]
    refine le_trans hcap ?_
    rw [mul_two]
    exact Nat.le_add_right _ _

/-- `set_junction` where the block is `m.map some`, indexed by `m.length`. -/
theorem set_map_junction (m : List α) (b : Option α) (B : List (Option α))
    (x : Option α) : (m.map some ++ b :: B).set m.length x = m.map some ++ x :: B := by
  rw [show m.length = (m.map some).length by simp]
  exact set_junction (m.map some) b B x

/-- `getD_junction` where the block is `m.map some`, indexed by `m.length`. -/
theorem getD_map_junction (m : List α) (b : Option α) (B : List (Option α)) :
    (m.map some ++ b :: B).getD m.length none = b := by
  rw [show m.length = (m.map some).length by simp]
  exact getD_junction (m.map some) b B none

/-- The live range of a buffer in canonical form. -/
theorem live_mk (m : List α) (R : List (Option α)) :
    live ⟨m.map some ++ R, m.length⟩ = m := by
  unfold live
  rw [show m.length = (m.map some).length by simp]
  rw [List.take_left]
  simp

/-- A buffer in canonical form satisfies the container invariant. -/
theorem WF_mk (m : List α) (k : Nat) :
    WF ⟨m.map some ++ List.replicate k none, m.length⟩ := by
  unfold WF Vector.Capacity
  rw [live_mk]
  simp

/-- Freshly migrated storage satisfies the container invariant. -/
theorem WF_mkSlots (l : List α) (c : Nat) : WF ⟨mkSlots l c, l.length⟩ :=
  WF_mk l (c - l.length)

/-- `uninitialized_move_n` succeeds and transfers the values unchanged when
no move throws. -/
theorem moveMigrate_ok (ops : Ops α) (l : List α)
    (h : ∀ a ∈ l, ops.moveFails a = false) : moveMigrate ops l = Except.ok l := by
  induction l with
  | nil => rfl
  | cons a l ih =>
    simp only [moveMigrate, h a (by simp)]
    rw [ih (fun b hb => h b (by simp [hb]))]
    simp

/-- A failed `uninitialized_move_n` failed at an index inside the range. -/
theorem moveMigrate_err_lt (ops : Ops α) (l : List α) (k : Nat)
    (h : moveMigrate ops l = Except.error k) : k < l.length := by
  induction l generalizing k with
  | nil => simp [moveMigrate] at h
  | cons a l ih =>
    by_cases hf : ops.moveFails a
    · simp [moveMigrate, hf] at h
      simp [← h]
    · rcases hm : moveMigrate ops l with k2 | l2
      · simp [moveMigrate, hf, hm] at h
        have := ih k2 hm
        simp [← h]
        exact this
      · simp [moveMigrate, hf, hm] at h

/-- Reading inside the first block of an appended pair of slot lists. -/
theorem getD_append_lt {β : Type} (A B : List β) (d : β) (i : Nat)
    (h : i < A.length) : (A ++ B).getD i d = A.getD i d := by
  induction A generalizing i with
  | nil => simp at h
  | cons a A ih =>
    cases i with
    | zero => rfl
    | succ j => exact ih j (by simpa using h)

/-- Reading a live slot yields the corresponding list entry. -/
theorem getD_map_some_lt (m : List α) (i : Nat) (h : i < m.length) :
    (m.map some).getD i none = m.get? i := by
  induction m generalizing i with
  | nil => simp at h
  | cons a m ih =>
    cases i with
    | zero => rfl
    | succ j => exact ih j (by simpa using h)

/-- `operator[]` on a buffer in canonical form reads the live value. -/
theorem read_canonical (m : List α) (R : List (Option α)) (s i : Nat)
    (h : i < m.length) : read ⟨m.map some ++ R, s⟩ i = m.get? i := by
  unfold read
  rw [getD_append_lt _ _ _ _ (by simpa using h)]
  exact getD_map_some_lt m i h

/-- One successful `EmplaceBack` on a buffer in canonical form appends the
constructed value, through either the spare-capacity or the growth path. -/
theorem EmplaceBack_grow (ops : Ops α) (x : α) (m : List α) (k : Nat)
    (hm : ∀ a ∈ m, ops.moveFails a = false)
    (hc : ∀ a ∈ m, ops.copyFails a = false) :
    ∃ k2, Vector.EmplaceBack ops (some x)
        ⟨m.map some ++ List.replicate k none, m.length⟩ =
      Except.ok ⟨(m ++ [x]).map some ++ List.replicate k2 none, m.length + 1⟩ := by
  cases k with
  | succ j =>
    refine ⟨j, ?_⟩
    unfold Vector.EmplaceBack
    rw [if_pos (by simp [Vector.Capacity])]
    rw [show List.replicate (j + 1) (none : Option α) = none :: List.replicate j none
      from rfl]
    simp [set_map_junction]
  | zero =>
    have hl0 : live (⟨List.map some m, m.length⟩ : Vector α) = m := by
      simpa using live_mk m ([] : List (Option α))
    have hmig0 : moveMigrate ops (live (⟨List.map some m, m.length⟩ : Vector α)) =
        Except.ok m := by rw [hl0]; exact moveMigrate_ok ops m hm
    have hany0 : (live (⟨List.map some m, m.length⟩ : Vector α)).any ops.copyFails =
        false := by
      rw [hl0]; exact List.any_eq_false.2 (fun a ha => by simp [hc a ha])
    refine ⟨newCapOf (⟨List.map some m, m.length⟩ : Vector α) - (m.length + 1), ?_⟩
    have hv : (⟨List.map some m ++ List.replicate 0 none, m.length⟩ : Vector α) =
        ⟨List.map some m, m.length⟩ := by simp
    rw [hv]
    unfold Vector.EmplaceBack
    rw [if_neg (by simp [Vector.Capacity])]
    cases hu : useMove ops with
    | true =>
      simp [hl0, moveMigrate_ok ops m hm, mkSlots]
    | false =>
      have hex : ¬ ∃ b, b ∈ m ∧ ops.copyFails b = true := by
        rintro ⟨b, hb, hbf⟩
        rw [hc b hb] at hbf
        exact Bool.false_ne_true hbf
      simp [hl0, mkSlots, hex]

/-- A run of successful `PushBack` calls on a buffer in canonical form appends
all the values in order. -/
theorem appendSeq_ok (ops : Ops α)
    (hm : ∀ a, ops.moveFails a = false) (hc : ∀ a, ops.copyFails a = false) :
    ∀ (l m : List α) (k : Nat), ∃ k2,
      appendSeq ops l ⟨m.map some ++ List.replicate k none, m.length⟩ =
        Except.ok ⟨(m ++ l).map some ++ List.replicate k2 none, (m ++ l).length⟩ := by
  intro l
  induction l with
  | nil => intro m k; exact ⟨k, by simp [appendSeq]⟩
  | cons x l ih =>
    intro m k
    obtain ⟨k2, h⟩ := EmplaceBack_grow ops x m k (fun a _ => hm a) (fun a _ => hc a)
    obtain ⟨k3, h3⟩ := ih (m ++ [x]) k2
    refine ⟨k3, ?_⟩
    rw [appendSeq, Vector.PushBack, mkOf, if_neg (by simp [hc x]), h]
    have h3' : appendSeq ops l ⟨(m ++ [x]).map some ++ List.replicate k2 none,
        m.length + 1⟩ = Except.ok ⟨((m ++ [x]) ++ l).map some ++
        List.replicate k3 none, ((m ++ [x]) ++ l).length⟩ := by
      simpa using h3
    show appendSeq ops l ⟨(m ++ [x]).map some ++ List.replicate k2 none,
      m.length + 1⟩ = _
    rw [h3']
    simp

/-- Claim C2: starting from a default-constructed buffer, a sequence of
appends (`PushBack`, which forwards to `EmplaceBack`) succeeds for an element
type whose copies and moves do not throw; afterwards `size` equals the number
of appends, iteration yields exactly the appended values in order, and
reading index `i` yields the i-th appended value for every valid `i`. -/
theorem appends_give_size_and_readback (ops : Ops α) (l : List α)
    (hm : ∀ a, ops.moveFails a = false) (hc : ∀ a, ops.copyFails a = false) :
    ∃ w, appendSeq ops l emptyVec = Except.ok w ∧
      w.Size = l.length ∧ live w = l ∧
      ∀ i, i < l.length → read w i = l.get? i := by
  obtain ⟨k2, h⟩ := appendSeq_ok ops hm hc l [] 0
  refine ⟨⟨l.map some ++ List.replicate k2 none, l.length⟩, ?_, rfl, live_mk l _, ?_⟩
  · simpa [emptyVec] using h
  · intro i hi
    exact read_canonical l _ _ i hi

/-- Witness for C2 on the concrete appends `[3, 4, 5]`. -/
theorem appends_give_size_and_readback_witness :
    ∃ w, appendSeq ops0 [3, 4, 5] emptyVec = Except.ok w ∧
      w.Size = 3 ∧ live w = [3, 4, 5] ∧
      ∀ i, i < 3 → read w i = [3, 4, 5].get? i :=
  appends_give_size_and_readback ops0 [3, 4, 5] (fun _ => rfl) (fun _ => rfl)

/-- The forward shift performed by `Erase` on a buffer in canonical form:
with no move-assignment throwing, shifting the `rest` values one slot towards
the front starting at position `P.length` (whose old value `x` is overwritten)
succeeds and leaves `rest` there, followed by one junk slot left over from the
last move. -/
theorem moveForward_shift (ops : Ops α) (hm : ∀ a, ops.moveFails a = false) :
    ∀ (rest : List α) (P : List (Option α)) (x : α) (R : List (Option α)),
      ∃ z, moveForward ops P.length (P ++ some x :: rest.map some ++ R)
          rest.length = Except.ok (P ++ rest.map some ++ z :: R) := by
  intro rest
  induction rest with
  | nil => intro P x R; exact ⟨some x, by simp [moveForward]⟩
  | cons b rest ih =>
    intro P x R
    obtain ⟨z, hz⟩ := ih (P ++ [some b]) (ops.movedFrom b) R
    rw [List.append_assoc, List.cons_append] at hz
    refine ⟨z, ?_⟩
    simp only [List.map_cons, List.length_cons]
    have hL1 : (P ++ [some x]).length = P.length + 1 := by
      rw [List.length_append]
      rfl
    have hL2 : (P ++ [some b]).length = P.length + 1 := by
      rw [List.length_append]
      rfl
    have hmid : P ++ some x :: some b :: rest.map some ++ R
        = P ++ some x :: (some b :: (rest.map some ++ R)) := by
      rw [List.append_assoc, List.cons_append, List.cons_append]
    have h1 : (P ++ some x :: some b :: rest.map some ++ R).getD
        (P.length + 1) none = some b := by
      rw [hmid, List.append_cons, ← hL1]
      exact getD_junction _ _ _ _
    have h2 : ((P ++ some x :: some b :: rest.map some ++ R).set P.length
          (some b)).set (P.length + 1) (some (ops.movedFrom b))
        = (P ++ [some b]) ++ some (ops.movedFrom b) :: (rest.map some ++ R) := by
      rw [hmid, set_junction, List.append_cons, ← hL2, set_junction]
    rw [moveForward, h1]
    show (if ops.moveFails b = true then
        Except.error (P ++ some x :: some b :: rest.map some ++ R)
      else
        moveForward ops (P.length + 1)
          (((P ++ some x :: some b :: rest.map some ++ R).set P.length
            (some b)).set (P.length + 1) (some (ops.movedFrom b)))
          rest.length) = _
    rw [if_neg (show ¬ ops.moveFails b = true from by
      rw [hm b]; exact Bool.false_ne_true)]
    rw [h2, ← hL2, hz, ← List.append_cons]

/-- `Erase` at position `P.length` of a buffer in canonical form whose live
values are `P ++ x :: rest` with `k` spare slots: the shift succeeds, `x` is
removed and one more slot becomes raw memory. -/
theorem erase_canonical (ops : Ops α) (hm : ∀ a, ops.moveFails a = false)
    (P rest : List α) (x : α) (k : Nat) (v : Vector α)
    (hslots : v.slots = P.map some ++ some x :: rest.map some ++
      List.replicate k none)
    (hsize : v.size_ = P.length + rest.length + 1) :
    Vector.Erase ops P.length v = Except.ok (P.length,
      ⟨(P ++ rest).map some ++ List.replicate (k + 1) none,
        P.length + rest.length⟩) := by
  obtain ⟨z, hz⟩ := moveForward_shift ops hm rest (P.map some) x
    (List.replicate k none)
  rw [List.length_map] at hz
  unfold Vector.Erase
  rw [hslots, hsize]
  rw [show P.length + rest.length + 1 - 1 - P.length = rest.length from
    shift_count_eq P.length rest.length]
  rw [hz]
  show Except.ok (P.length, Vector.PopBack
      ⟨P.map some ++ rest.map some ++ z :: List.replicate k none,
        P.length + rest.length + 1⟩) = _
  unfold Vector.PopBack
  rw [if_neg (show ¬ (P.length + rest.length + 1 = 0) from Nat.succ_ne_zero _)]
  rw [Nat.add_sub_cancel]
  have hset : (P.map some ++ rest.map some ++ z :: List.replicate k none).set
      (P.length + rest.length) none
      = (P ++ rest).map some ++ List.replicate (k + 1) none := by
    have h := set_junction (P.map some ++ rest.map some) z
      (List.replicate k none) (none : Option α)
    simp only [List.length_append, List.length_map] at h
    rw [h]
    simp [List.replicate_succ]
  rw [hset]

/-- Claim C6: on a non-empty buffer, `Erase` at a valid position `index`
removes exactly the element at `index` (shifting `[index + 1, size)` one slot
towards the front), decreases `size` by one, keeps the capacity (no
reallocation), restores the invariant, and returns `begin() + index`. -/
theorem erase_removes_element_at_index (ops : Ops α) (v : Vector α)
    (index : Nat) (hWF : WF v) (hidx : index < v.size_)
    (hm : ∀ a, ops.moveFails a = false) :
    ∃ u, Vector.Erase ops index v = Except.ok (index, u) ∧
      live u = (live v).take index ++ (live v).drop (index + 1) ∧
      u.Size = v.Size - 1 ∧ u.Capacity = v.Capacity ∧ WF u := by
  obtain ⟨hle, hlen, hslots⟩ := hWF
  set m := live v with hmdef
  set P := m.take index with hPdef
  set rest := m.drop (index + 1) with hrestdef
  have hidx' : index < m.length := by rw [hlen]; exact hidx
  have hPlen : P.length = index := by
    rw [hPdef, List.length_take]
    exact Nat.min_eq_left (Nat.le_of_lt hidx')
  have hrestlen : rest.length = v.size_ - 1 - index := by
    rw [hrestdef, List.length_drop, hlen, Nat.sub_sub, Nat.add_comm 1 index]
  obtain ⟨x, hdec⟩ : ∃ x, m = P ++ x :: rest := by
    refine ⟨m.get ⟨index, hidx'⟩, ?_⟩
    rw [hPdef, hrestdef]
    conv_lhs => rw [← List.take_append_drop index m]
    rw [List.drop_eq_get_cons hidx']
  have hsize : v.size_ = P.length + rest.length + 1 := by
    rw [hPlen, hrestlen]
    exact size_split v.size_ index hidx
  have hslots' : v.slots = P.map some ++ some x :: rest.map some ++
      List.replicate (v.Capacity - v.size_) none := by
    rw [hslots, hdec, List.map_append, List.map_cons]
  have hE := erase_canonical ops hm P rest x (v.Capacity - v.size_) v
    hslots' hsize
  rw [hPlen] at hE
  refine ⟨_, hE, ?_, ?_, ?_, ?_⟩
  · rw [show index + rest.length = (P ++ rest).length from by
      rw [List.length_append, hPlen]]
    exact live_mk _ _
  · show index + rest.length = v.size_ - 1
    rw [hrestlen]
    exact mid_sum_eq index v.size_ hidx
  · show ((P ++ rest).map some ++
        List.replicate (v.Capacity - v.size_ + 1) none).length = v.Capacity
    rw [List.length_append, List.length_map, List.length_append,
      List.length_replicate, hPlen, hrestlen]
    exact cap_restore v.size_ v.Capacity index hidx hle
  · rw [show index + rest.length = (P ++ rest).length from by
      rw [List.length_append, hPlen]]
    exact WF_mk _ _

/-- Witness for C6: erasing position 1 of `[1, 2, 3]` (capacity 4). -/
theorem erase_removes_element_at_index_witness :
    ∃ u, Vector.Erase ops0 1 ⟨[some 1, some 2, some 3, none], 3⟩ =
        Except.ok (1, u) ∧
      live u = (live (⟨[some 1, some 2, some 3, none], 3⟩ : Vector Nat)).take 1 ++
        (live (⟨[some 1, some 2, some 3, none], 3⟩ : Vector Nat)).drop 2 ∧
      u.Size = (⟨[some 1, some 2, some 3, none], 3⟩ : Vector Nat).Size - 1 ∧
      u.Capacity = (⟨[some 1, some 2, some 3, none], 3⟩ : Vector Nat).Capacity ∧
      WF u :=
  erase_removes_element_at_index ops0 ⟨[some 1, some 2, some 3, none], 3⟩ 1
    (by decide) (by decide) (fun _ => rfl)

/-- A fully successful left-to-right write fills consecutive slots. -/
theorem fillRange_spec : ∀ (l : List α) (P Q : List (Option α)),
    l.length ≤ Q.length →
    fillRange (P ++ Q) P.length l = P ++ l.map some ++ Q.drop l.length := by
  intro l
  induction l with
  | nil => intro P Q h; simp [fillRange]
  | cons a l ih =>
    intro P Q h
    cases Q with
    | nil => simp at h
    | cons q Q =>
      show fillRange ((P ++ q :: Q).set P.length (some a)) (P.length + 1) l = _
      rw [set_junction]
      rw [show P ++ some a :: Q = (P ++ [some a]) ++ Q from by simp]
      rw [show P.length + 1 = (P ++ [some a]).length from by simp]
      rw [ih (P ++ [some a]) Q (by simpa using h)]
      simp

/-- `fillRange_spec` at position 0. -/
theorem fillRange_zero (l : List α) (Q : List (Option α))
    (h : l.length ≤ Q.length) :
    fillRange Q 0 l = l.map some ++ Q.drop l.length := by
  simpa using fillRange_spec l [] Q h

/-- `std::copy` succeeds and writes all the values when no copy throws. -/
theorem copyRange_ok (ops : Ops α) : ∀ (l : List α) (slots : List (Option α))
    (j : Nat), (∀ a ∈ l, ops.copyFails a = false) →
    copyRange ops slots j l = Except.ok (fillRange slots j l) := by
  intro l
  induction l with
  | nil => intro slots j _; rfl
  | cons a l ih =>
    intro slots j h
    show (if ops.copyFails a = true then Except.error slots
      else copyRange ops (slots.set j (some a)) (j + 1) l) = _
    rw [if_neg (by simp [h a (by simp)])]
    exact ih _ _ (fun b hb => h b (by simp [hb]))

/-- `destroy_n` turns consecutive slots into raw memory. -/
theorem setNoneRange_spec : ∀ (n : Nat) (P Q : List (Option α)),
    n ≤ Q.length →
    setNoneRange (P ++ Q) P.length n = P ++ List.replicate n none ++ Q.drop n := by
  intro n
  induction n with
  | zero => intro P Q h; simp [setNoneRange]
  | succ n ih =>
    intro P Q h
    cases Q with
    | nil => simp at h
    | cons q Q =>
      show setNoneRange ((P ++ q :: Q).set P.length none) (P.length + 1) n = _
      rw [set_junction]
      rw [show P ++ none :: Q = (P ++ [(none : Option α)]) ++ Q from by simp]
      rw [show P.length + 1 = (P ++ [(none : Option α)]).length from by simp]
      rw [ih (P ++ [none]) Q (by simpa using h)]
      simp [List.replicate_succ]

/-- Dropping exactly the live block of a canonical buffer. -/
theorem drop_map_left (m : List α) (R : List (Option α)) :
    (m.map some ++ R).drop m.length = R := by
  rw [show m.length = (m.map some).length by simp, List.drop_left]

/-- Claim C7: copy-assignment between distinct buffers.  On success (no copy
throws) the destination ends with the source's size and element values (the
source itself is a `const` reference the model never modifies).  And whenever
the source's element count exceeds the destination's capacity, the code
builds a complete fresh copy before swapping it in, so if the copying throws
the destination is exactly its old self. -/
theorem copy_assign_copies_and_isolates_failure (ops : Ops α) (v rhs : Vector α)
    (hv : WF v) (hr : WF rhs) (hc : ∀ a, ops.copyFails a = false) :
    (∃ w, copyAssign ops false v rhs = Except.ok w ∧
      w.Size = rhs.Size ∧ live w = live rhs ∧ WF w) ∧
    (∀ (ops2 : Ops α) (e : Vector α), v.Capacity < rhs.size_ →
      copyAssign ops2 false v rhs = Except.error e → e = v) := by
  obtain ⟨hle, hlen, hslots⟩ := hv
  obtain ⟨hle2, hlen2, hslots2⟩ := hr
  constructor
  · have key : ∃ k2, copyAssign ops false v rhs =
        Except.ok ⟨(live rhs).map some ++ List.replicate k2 none, rhs.size_⟩ := by
      by_cases hbig : v.Capacity < rhs.size_
      · refine ⟨rhs.size_ - (live rhs).length, ?_⟩
        unfold copyAssign
        rw [if_neg Bool.false_ne_true, if_pos hbig]
        have hctor : copyCtorV ops rhs =
            Except.ok ⟨mkSlots (live rhs) rhs.size_, rhs.size_⟩ := by
          unfold copyCtorV
          rw [if_neg (by
            rw [List.any_eq_false.2 (fun a _ => by
              rw [hc a]; exact Bool.false_ne_true)]
            exact Bool.false_ne_true)]
        rw [hctor]
        rfl
      · by_cases hlt : rhs.size_ < v.size_
        · -- reuse storage, destination longer: overwrite then destroy the tail
          refine ⟨v.size_ - rhs.size_ + (v.Capacity - v.size_), ?_⟩
          unfold copyAssign
          rw [if_neg Bool.false_ne_true, if_neg hbig, if_pos hlt]
          rw [copyRange_ok ops (live rhs) v.slots 0 (fun a _ => hc a)]
          have hfill : fillRange v.slots 0 (live rhs) = (live rhs).map some ++
              (((live v).drop rhs.size_).map some ++
              List.replicate (v.Capacity - v.size_) none) := by
            rw [fillRange_zero (live rhs) v.slots
              (by
                rw [hlen2, hslots, List.length_append, List.length_map,
                  List.length_replicate, hlen, Nat.add_sub_cancel' hle]
                exact Nat.le_of_not_lt hbig)]
            rw [hslots, hlen2]
            rw [List.drop_append_of_le_length
              (by rw [List.length_map, hlen]; exact Nat.le_of_lt hlt)]
            rw [← List.map_drop]
          show Except.ok (⟨setNoneRange (fillRange v.slots 0 (live rhs))
            rhs.size_ (v.size_ - rhs.size_), rhs.size_⟩ : Vector α) = _
          rw [hfill]
          have hset := setNoneRange_spec (v.size_ - rhs.size_)
            ((live rhs).map some)
            (((live v).drop rhs.size_).map some ++
              List.replicate (v.Capacity - v.size_) none)
            (by
              rw [List.length_append, List.length_map, List.length_drop,
                List.length_replicate, hlen]
              exact Nat.le_add_right _ _)
          rw [show ((live rhs).map some).length = rhs.size_ from by
            rw [List.length_map, hlen2]] at hset
          rw [hset]
          have hdrop : (((live v).drop rhs.size_).map some ++
              List.replicate (v.Capacity - v.size_) none).drop
              (v.size_ - rhs.size_)
              = List.replicate (v.Capacity - v.size_) none := by
            rw [show v.size_ - rhs.size_
                = (((live v).drop rhs.size_).map some).length from by
              rw [List.length_map, List.length_drop, hlen]]
            rw [List.drop_left]
          rw [hdrop]
          rw [List.append_assoc, ← List.replicate_add]
        · -- reuse storage, source at least as long: overwrite then extend
          have hvr : v.size_ ≤ rhs.size_ := Nat.le_of_not_lt hlt
          have hcap : rhs.size_ ≤ v.Capacity := Nat.le_of_not_lt hbig
          refine ⟨v.Capacity - v.size_ - (rhs.size_ - v.size_), ?_⟩
          unfold copyAssign
          rw [if_neg Bool.false_ne_true, if_neg hbig, if_neg hlt]
          rw [copyRange_ok ops ((live rhs).take v.size_) v.slots 0
            (fun a _ => hc a)]
          have hl1 : ((live rhs).take v.size_).length = v.size_ := by
            rw [List.length_take, hlen2]
            exact Nat.min_eq_left hvr
          have hfill : fillRange v.slots 0 ((live rhs).take v.size_) =
              ((live rhs).take v.size_).map some ++
              List.replicate (v.Capacity - v.size_) none := by
            rw [fillRange_zero ((live rhs).take v.size_) v.slots
              (by
                rw [hl1, hslots, List.length_append, List.length_map,
                  List.length_replicate, hlen]
                exact Nat.le_add_right _ _)]
            rw [hl1, hslots]
            rw [show v.size_ = ((live v).map some).length from by
              rw [List.length_map, hlen]]
            rw [List.drop_left]
          show (match uninitCopyRange ops
              (fillRange v.slots 0 ((live rhs).take v.size_)) v.size_
              ((live rhs).drop v.size_) with
            | Except.error s2 => Except.error (⟨s2, v.size_⟩ : Vector α)
            | Except.ok s2 => Except.ok (⟨s2, rhs.size_⟩ : Vector α)) = _
          rw [hfill]
          have hany2 : ((live rhs).drop v.size_).any ops.copyFails = false :=
            List.any_eq_false.2 (fun a _ => by
              rw [hc a]; exact Bool.false_ne_true)
          have huninit : uninitCopyRange ops
              (((live rhs).take v.size_).map some ++
                List.replicate (v.Capacity - v.size_) none) v.size_
              ((live rhs).drop v.size_)
              = Except.ok (fillRange (((live rhs).take v.size_).map some ++
                List.replicate (v.Capacity - v.size_) none) v.size_
                ((live rhs).drop v.size_)) := by
            unfold uninitCopyRange
            rw [if_neg (by rw [hany2]; exact Bool.false_ne_true)]
          rw [huninit]
          have hfill2 := fillRange_spec ((live rhs).drop v.size_)
            (((live rhs).take v.size_).map some)
            (List.replicate (v.Capacity - v.size_) none)
            (by
              rw [List.length_drop, List.length_replicate, hlen2]
              exact Nat.sub_le_sub_right hcap _)
          rw [show (((live rhs).take v.size_).map some).length = v.size_ from by
            rw [List.length_map]; exact hl1] at hfill2
          rw [hfill2]
          rw [show (List.replicate (v.Capacity - v.size_) (none : Option α)).drop
              ((live rhs).drop v.size_).length
              = List.replicate (v.Capacity - v.size_ -
                (rhs.size_ - v.size_)) none from by
            rw [List.length_drop, hlen2, List.drop_replicate]]
          rw [show ((live rhs).take v.size_).map some ++
              ((live rhs).drop v.size_).map some
              = (live rhs).map some from by
            rw [← List.map_append, List.take_append_drop]]
    obtain ⟨k2, hk⟩ := key
    refine ⟨⟨(live rhs).map some ++ List.replicate k2 none, rhs.size_⟩, hk,
      rfl, ?_, ?_⟩
    · rw [show (⟨(live rhs).map some ++ List.replicate k2 none, rhs.size_⟩ :
          Vector α) = ⟨(live rhs).map some ++ List.replicate k2 none,
          (live rhs).length⟩ from by rw [hlen2]]
      exact live_mk _ _
    · rw [show (⟨(live rhs).map some ++ List.replicate k2 none, rhs.size_⟩ :
          Vector α) = ⟨(live rhs).map some ++ List.replicate k2 none,
          (live rhs).length⟩ from by rw [hlen2]]
      exact WF_mk _ _
  · intro ops2 e hbig he
    unfold copyAssign at he
    rw [if_neg Bool.false_ne_true, if_pos hbig] at he
    cases hctor : copyCtorV ops2 rhs with
    | error u => rw [hctor] at he; exact (Except.error.inj he).symm
    | ok w => rw [hctor] at he; exact Except.noConfusion he

/-- Witness for C7: copy-assigning `[5, 6, 7, 8, 9]` into a buffer holding
`[1, 1, 1]` (capacity 3 < 5, so the fresh-copy-and-swap branch runs). -/
theorem copy_assign_copies_and_isolates_failure_witness :
    (∃ w, copyAssign ops0 false ⟨[some 1, some 1, some 1], 3⟩
        ⟨[some 5, some 6, some 7, some 8, some 9], 5⟩ = Except.ok w ∧
      w.Size = (⟨[some 5, some 6, some 7, some 8, some 9], 5⟩ :
        Vector Nat).Size ∧
      live w = live (⟨[some 5, some 6, some 7, some 8, some 9], 5⟩ :
        Vector Nat) ∧ WF w) ∧
    (∀ (ops2 : Ops Nat) (e : Vector Nat),
      (⟨[some 1, some 1, some 1], 3⟩ : Vector Nat).Capacity <
        (⟨[some 5, some 6, some 7, some 8, some 9], 5⟩ : Vector Nat).size_ →
      copyAssign ops2 false ⟨[some 1, some 1, some 1], 3⟩
        ⟨[some 5, some 6, some 7, some 8, some 9], 5⟩ = Except.error e →
      e = ⟨[some 1, some 1, some 1], 3⟩) :=
  copy_assign_copies_and_isolates_failure ops0 ⟨[some 1, some 1, some 1], 3⟩
    ⟨[some 5, some 6, some 7, some 8, some 9], 5⟩ (by decide) (by decide)
    (fun _ => rfl)

/-- At most `size_` elements are live. -/
theorem live_length_le_size (v : Vector α) : (live v).length ≤ v.size_ := by
  unfold live
  refine le_trans (List.length_filterMap_le _ _) ?_
  rw [List.length_take]
  exact Nat.min_le_left _ _

/-- At most `capacity` elements are live. -/
theorem live_length_le_cap (v : Vector α) : (live v).length ≤ v.slots.length := by
  unfold live
  refine le_trans (List.length_filterMap_le _ _) ?_
  rw [List.length_take]
  exact Nat.min_le_right _ _

/-- A successful `uninitialized_move_n` moves exactly the source values. -/
theorem moveMigrate_ok_eq (ops : Ops α) : ∀ (l l2 : List α),
    moveMigrate ops l = Except.ok l2 → l2 = l := by
  intro l
  induction l with
  | nil =>
    intro l2 h
    simp [moveMigrate] at h
    exact h
  | cons a l ih =>
    intro l2 h
    by_cases hf : ops.moveFails a = true
    · simp [moveMigrate, hf] at h
    · rcases hm : moveMigrate ops l with k | l3
      · simp [moveMigrate, hf, hm] at h
      · simp [moveMigrate, hf, hm] at h
        rw [← h, ih l3 hm]

/-- Fresh storage allocated for `c` slots has capacity at least `c`. -/
theorem mkSlots_cap_le (l : List α) (c : Nat) : c ≤ (mkSlots l c).length := by
  show c ≤ (l.map some ++ List.replicate (c - l.length) none).length
  rw [List.length_append, List.length_map, List.length_replicate]
  exact le_add_tsub

/-- A failed move-migration leaves the buffer's capacity unchanged. -/
theorem huskState_cap (ops : Ops α) (v : Vector α) (k : Nat)
    (hk : k ≤ (live v).length) : (huskState ops v k).Capacity = v.Capacity := by
  show (((live v).take k).map (fun a => some (ops.movedFrom a)) ++
    v.slots.drop k).length = v.slots.length
  rw [List.length_append, List.length_map, List.length_take, List.length_drop]
  rw [Nat.min_eq_left hk]
  exact Nat.add_sub_cancel' (le_trans hk (live_length_le_cap v))

/-- Writing values into slots does not change the slot count. -/
theorem fillRange_length : ∀ (l : List α) (slots : List (Option α)) (j : Nat),
    (fillRange slots j l).length = slots.length := by
  intro l
  induction l with
  | nil => intro slots j; rfl
  | cons a l ih =>
    intro slots j
    show (fillRange (slots.set j (some a)) (j + 1) l).length = _
    rw [ih, List.length_set]

/-- `std::copy` does not change the slot count, throw or not. -/
theorem copyRange_length (ops : Ops α) : ∀ (l : List α)
    (slots : List (Option α)) (j : Nat),
    (outSlots (copyRange ops slots j l)).length = slots.length := by
  intro l
  induction l with
  | nil => intro slots j; rfl
  | cons a l ih =>
    intro slots j
    show (outSlots (if ops.copyFails a = true then Except.error slots
      else copyRange ops (slots.set j (some a)) (j + 1) l)).length = _
    by_cases hf : ops.copyFails a = true
    · rw [if_pos hf]
      rfl
    · rw [if_neg hf]
      show (outSlots (copyRange ops (slots.set j (some a)) (j + 1) l)).length = _
      rw [ih, List.length_set]

/-- `destroy_n` does not change the slot count. -/
theorem setNoneRange_length : ∀ (n : Nat) (slots : List (Option α)) (j : Nat),
    (setNoneRange slots j n).length = slots.length := by
  intro n
  induction n with
  | zero => intro slots j; rfl
  | succ n ih =>
    intro slots j
    show (setNoneRange (slots.set j none) (j + 1) n).length = _
    rw [ih, List.length_set]

/-- The forward shift does not change the slot count, throw or not. -/
theorem moveForward_length (ops : Ops α) : ∀ (n j : Nat)
    (slots : List (Option α)),
    (outSlots (moveForward ops j slots n)).length = slots.length := by
  intro n
  induction n with
  | zero => intro j slots; rfl
  | succ n ih =>
    intro j slots
    rcases hg : slots.getD (j + 1) none with _ | a
    · show (outSlots (match slots.getD (j + 1) none with
        | none => Except.ok slots
        | some a => if ops.moveFails a = true then Except.error slots
          else moveForward ops (j + 1)
            ((slots.set j (some a)).set (j + 1) (some (ops.movedFrom a)))
            n)).length = _
      rw [hg]
      rfl
    · show (outSlots (match slots.getD (j + 1) none with
        | none => Except.ok slots
        | some a => if ops.moveFails a = true then Except.error slots
          else moveForward ops (j + 1)
            ((slots.set j (some a)).set (j + 1) (some (ops.movedFrom a)))
            n)).length = _
      rw [hg]
      show (outSlots (if ops.moveFails a = true then Except.error slots
        else moveForward ops (j + 1)
          ((slots.set j (some a)).set (j + 1) (some (ops.movedFrom a)))
          n)).length = _
      by_cases hf : ops.moveFails a = true
      · rw [if_pos hf]
        rfl
      · rw [if_neg hf]
        show (outSlots (moveForward ops (j + 1)
          ((slots.set j (some a)).set (j + 1) (some (ops.movedFrom a)))
          n)).length = _
        rw [ih, List.length_set, List.length_set]

/-- The backward shift does not change the slot count, throw or not. -/
theorem moveBackward_length (ops : Ops α) (index : Nat) : ∀ (n : Nat)
    (slots : List (Option α)),
    (outSlots (moveBackward ops index slots n)).length = slots.length := by
  intro n
  induction n with
  | zero => intro slots; rfl
  | succ n ih =>
    intro slots
    rcases hg : slots.getD (index + n) none with _ | a
    · show (outSlots (match slots.getD (index + n) none with
        | none => Except.ok slots
        | some a => if ops.moveFails a = true then Except.error slots
          else moveBackward ops index
            ((slots.set (index + n + 1) (some a)).set (index + n)
              (some (ops.movedFrom a))) n)).length = _
      rw [hg]
      rfl
    · show (outSlots (match slots.getD (index + n) none with
        | none => Except.ok slots
        | some a => if ops.moveFails a = true then Except.error slots
          else moveBackward ops index
            ((slots.set (index + n + 1) (some a)).set (index + n)
              (some (ops.movedFrom a))) n)).length = _
      rw [hg]
      show (outSlots (if ops.moveFails a = true then Except.error slots
        else moveBackward ops index
          ((slots.set (index + n + 1) (some a)).set (index + n)
            (some (ops.movedFrom a))) n)).length = _
      by_cases hf : ops.moveFails a = true
      · rw [if_pos hf]
        rfl
      · rw [if_neg hf]
        show (outSlots (moveBackward ops index
          ((slots.set (index + n + 1) (some a)).set (index + n)
            (some (ops.movedFrom a))) n)).length = _
        rw [ih, List.length_set, List.length_set]

/-- `PopBack` never changes the capacity. -/
theorem popBack_cap (v : Vector α) : (Vector.PopBack v).Capacity = v.Capacity := by
  unfold Vector.PopBack
  by_cases hz : v.size_ = 0
  · rw [if_pos hz]
  · rw [if_neg hz]
    show (v.slots.set (v.size_ - 1) none).length = v.slots.length
    rw [List.length_set]

/-- `Reserve` never shrinks the capacity, throw or not. -/
theorem reserve_capMono (ops : Ops α) (n : Nat) (v : Vector α) :
    capMono v (Vector.Reserve ops n v) := by
  unfold Vector.Reserve
  by_cases hle : n ≤ v.Capacity
  · rw [if_pos hle]
    show v.Capacity ≤ v.Capacity
    exact le_rfl
  · rw [if_neg hle]
    by_cases hu : useMove ops = true
    · rw [if_pos hu]
      rcases hm : moveMigrate ops (live v) with k | l
      · show v.Capacity ≤ (huskState ops v k).Capacity
        rw [huskState_cap ops v k (le_of_lt (moveMigrate_err_lt ops _ k hm))]
      · show v.Capacity ≤ (mkSlots l n).length
        exact le_trans (le_of_not_le hle) (mkSlots_cap_le l n)
    · rw [if_neg hu]
      by_cases ha : (live v).any ops.copyFails = true
      · rw [if_pos ha]
        show v.Capacity ≤ v.Capacity
        exact le_rfl
      · rw [if_neg ha]
        show v.Capacity ≤ (mkSlots (live v) n).length
        exact le_trans (le_of_not_le hle) (mkSlots_cap_le _ n)

/-- `EmplaceBack` never shrinks the capacity, throw or not. -/
theorem emplaceBack_capMono (ops : Ops α) (mk : Option α) (v : Vector α) :
    capMono v (Vector.EmplaceBack ops mk v) := by
  unfold Vector.EmplaceBack
  by_cases hs : v.size_ < v.Capacity
  · rw [if_pos hs]
    cases mk with
    | none =>
      show v.Capacity ≤ v.Capacity
      exact le_rfl
    | some x =>
      show v.Capacity ≤ (v.slots.set v.size_ (some x)).length
      rw [List.length_set]
      exact le_rfl
  · rw [if_neg hs]
    cases mk with
    | none =>
      show v.Capacity ≤ v.Capacity
      exact le_rfl
    | some x =>
      have hnc : v.Capacity ≤ newCapOf v := cap_le_newCap v (Nat.le_of_not_lt hs)
      show capMono v (if useMove ops = true then
        match moveMigrate ops (live v) with
        | Except.error k => Except.error (huskState ops v k)
        | Except.ok l =>
          Except.ok (⟨mkSlots (l ++ [x]) (newCapOf v), v.size_ + 1⟩ : Vector α)
        else if (live v).any ops.copyFails = true then Except.error v
        else Except.ok ⟨mkSlots (live v ++ [x]) (newCapOf v), v.size_ + 1⟩)
      by_cases hu : useMove ops = true
      · rw [if_pos hu]
        rcases hm : moveMigrate ops (live v) with k | l
        · show v.Capacity ≤ (huskState ops v k).Capacity
          rw [huskState_cap ops v k (le_of_lt (moveMigrate_err_lt ops _ k hm))]
        · show v.Capacity ≤ (mkSlots (l ++ [x]) (newCapOf v)).length
          exact le_trans hnc (mkSlots_cap_le _ _)
      · rw [if_neg hu]
        by_cases ha : (live v).any ops.copyFails = true
        · rw [if_pos ha]
          show v.Capacity ≤ v.Capacity
          exact le_rfl
        · rw [if_neg ha]
          show v.Capacity ≤ (mkSlots (live v ++ [x]) (newCapOf v)).length
          exact le_trans hnc (mkSlots_cap_le _ _)

/-- `Emplace` never shrinks the capacity, throw or not. -/
theorem emplace_capMono (ops : Ops α) (index : Nat) (mk : Option α)
    (v : Vector α) : capMono v (Vector.Emplace ops index mk v) := by
  unfold Vector.Emplace
  by_cases hne : v.size_ ≠ v.Capacity
  · rw [if_pos hne]
    by_cases hz : v.size_ = 0
    · rw [if_pos hz]
      cases mk with
      | none =>
        show v.Capacity ≤ v.Capacity
        exact le_rfl
      | some x =>
        show v.Capacity ≤ (v.slots.set index (some x)).length
        rw [List.length_set]
        exact le_rfl
    · rw [if_neg hz]
      rcases hg : v.slots.getD (v.size_ - 1) none with _ | last
      · show v.Capacity ≤ v.Capacity
        exact le_rfl
      · show capMono v (if ops.moveFails last = true then Except.error v
          else match moveBackward ops index
            ((v.slots.set v.size_ (some last)).set (v.size_ - 1)
              (some (ops.movedFrom last))) (v.size_ - index) with
          | Except.error s =>
            Except.error (⟨s.set v.size_ none, v.size_⟩ : Vector α)
          | Except.ok s =>
            match mk with
            | none => Except.error (⟨s.set index none, v.size_⟩ : Vector α)
            | some x =>
              Except.ok (⟨(s.set index none).set index (some x), v.size_ + 1⟩ :
                Vector α))
        by_cases hf : ops.moveFails last = true
        · rw [if_pos hf]
          show v.Capacity ≤ v.Capacity
          exact le_rfl
        · rw [if_neg hf]
          have hlen := moveBackward_length ops index (v.size_ - index)
            ((v.slots.set v.size_ (some last)).set (v.size_ - 1)
              (some (ops.movedFrom last)))
          rcases hb : moveBackward ops index
              ((v.slots.set v.size_ (some last)).set (v.size_ - 1)
                (some (ops.movedFrom last))) (v.size_ - index) with s | s
          · rw [hb] at hlen
            show v.Capacity ≤ (s.set v.size_ none).length
            rw [List.length_set]
            rw [show (outSlots (Except.error s :
                Except (List (Option α)) (List (Option α)))) = s from rfl] at hlen
            rw [hlen, List.length_set, List.length_set]
            exact le_rfl
          · rw [hb] at hlen
            rw [show (outSlots (Except.ok s :
                Except (List (Option α)) (List (Option α)))) = s from rfl] at hlen
            cases mk with
            | none =>
              show v.Capacity ≤ (s.set index none).length
              rw [List.length_set, hlen, List.length_set, List.length_set]
              exact le_rfl
            | some x =>
              show v.Capacity ≤ ((s.set index none).set index (some x)).length
              rw [List.length_set, List.length_set, hlen, List.length_set,
                List.length_set]
              exact le_rfl
  · rw [if_neg hne]
    cases mk with
    | none =>
      show v.Capacity ≤ v.Capacity
      exact le_rfl
    | some x =>
      have hcap : v.Capacity ≤ v.size_ := le_of_eq (of_not_not hne).symm
      have hnc : v.Capacity ≤ newCapOf v := cap_le_newCap v hcap
      show capMono v (if useMove ops = true then
        match moveMigrate ops ((live v).take index) with
        | Except.error k => Except.error (huskState ops v k)
        | Except.ok p =>
          match moveMigrate ops ((live v).drop index) with
          | Except.error k => Except.error (huskState ops v (index + k))
          | Except.ok s =>
            Except.ok (⟨mkSlots (p ++ x :: s) (newCapOf v), v.size_ + 1⟩ :
              Vector α)
        else if ((live v).take index).any ops.copyFails = true then
          Except.error v
        else if ((live v).drop index).any ops.copyFails = true then
          Except.error v
        else Except.ok ⟨mkSlots ((live v).take index ++ x :: (live v).drop index)
          (newCapOf v), v.size_ + 1⟩)
      by_cases hu : useMove ops = true
      · rw [if_pos hu]
        rcases hm : moveMigrate ops ((live v).take index) with k | p
        · show v.Capacity ≤ (huskState ops v k).Capacity
          have hk := moveMigrate_err_lt ops _ k hm
          rw [huskState_cap ops v k (by
            refine le_trans (le_of_lt hk) ?_
            rw [List.length_take]
            exact Nat.min_le_right _ _)]
        · rcases hm2 : moveMigrate ops ((live v).drop index) with k | sfx
          · show v.Capacity ≤ (huskState ops v (index + k)).Capacity
            have hk := moveMigrate_err_lt ops _ k hm2
            rw [huskState_cap ops v (index + k) (by
              rw [List.length_drop] at hk
              exact le_of_lt (lt_tsub_iff_left.mp hk))]
          · show v.Capacity ≤ (mkSlots (p ++ x :: sfx) (newCapOf v)).length
            exact le_trans hnc (mkSlots_cap_le _ _)
      · rw [if_neg hu]
        by_cases h1 : ((live v).take index).any ops.copyFails = true
        · rw [if_pos h1]
          show v.Capacity ≤ v.Capacity
          exact le_rfl
        · rw [if_neg h1]
          by_cases h2 : ((live v).drop index).any ops.copyFails = true
          · rw [if_pos h2]
            show v.Capacity ≤ v.Capacity
            exact le_rfl
          · rw [if_neg h2]
            show v.Capacity ≤ (mkSlots ((live v).take index ++ x ::
              (live v).drop index) (newCapOf v)).length
            exact le_trans hnc (mkSlots_cap_le _ _)

/-- `Erase` never changes the capacity, throw or not. -/
theorem erase_capMono (ops : Ops α) (index : Nat) (v : Vector α) :
    capMonoPair v (Vector.Erase ops index v) := by
  unfold Vector.Erase
  have hlen := moveForward_length ops (v.size_ - 1 - index) index v.slots
  rcases hmf : moveForward ops index v.slots (v.size_ - 1 - index) with s | s
  · rw [hmf] at hlen
    rw [show (outSlots (Except.error s :
        Except (List (Option α)) (List (Option α)))) = s from rfl] at hlen
    show v.Capacity ≤ s.length
    exact le_of_eq hlen.symm
  · rw [hmf] at hlen
    rw [show (outSlots (Except.ok s :
        Except (List (Option α)) (List (Option α)))) = s from rfl] at hlen
    show v.Capacity ≤ (Vector.PopBack ⟨s, v.size_⟩).Capacity
    rw [popBack_cap]
    show v.Capacity ≤ s.length
    exact le_of_eq hlen.symm

/-- `operator=(const Vector&)` never shrinks the capacity, throw or not. -/
theorem copyAssign_capMono (ops : Ops α) (v rhs : Vector α) :
    capMono v (copyAssign ops false v rhs) := by
  unfold copyAssign
  rw [if_neg Bool.false_ne_true]
  by_cases hbig : v.Capacity < rhs.size_
  · rw [if_pos hbig]
    rcases hct : copyCtorV ops rhs with u | w
    · show v.Capacity ≤ v.Capacity
      exact le_rfl
    · show v.Capacity ≤ w.Capacity
      unfold copyCtorV at hct
      by_cases ha : (live rhs).any ops.copyFails = true
      · rw [if_pos ha] at hct
        cases hct
      · rw [if_neg ha] at hct
        have hw := Except.ok.inj hct
        rw [← hw]
        show v.Capacity ≤ (mkSlots (live rhs) rhs.size_).length
        exact le_trans (le_of_lt hbig) (mkSlots_cap_le _ _)
  · rw [if_neg hbig]
    by_cases hlt : rhs.size_ < v.size_
    · rw [if_pos hlt]
      have hcr := copyRange_length ops (live rhs) v.slots 0
      rcases hc : copyRange ops v.slots 0 (live rhs) with s | s
      · rw [hc] at hcr
        show v.Capacity ≤ s.length
        exact le_of_eq hcr.symm
      · rw [hc] at hcr
        show v.Capacity ≤ (setNoneRange s rhs.size_ (v.size_ - rhs.size_)).length
        rw [setNoneRange_length]
        exact le_of_eq hcr.symm
    · rw [if_neg hlt]
      have hcr := copyRange_length ops ((live rhs).take v.size_) v.slots 0
      rcases hc : copyRange ops v.slots 0 ((live rhs).take v.size_) with s | s
      · rw [hc] at hcr
        show v.Capacity ≤ s.length
        exact le_of_eq hcr.symm
      · rw [hc] at hcr
        show capMono v (match uninitCopyRange ops s v.size_
            ((live rhs).drop v.size_) with
          | Except.error s2 => Except.error (⟨s2, v.size_⟩ : Vector α)
          | Except.ok s2 => Except.ok (⟨s2, rhs.size_⟩ : Vector α))
        rcases hu2 : uninitCopyRange ops s v.size_ ((live rhs).drop v.size_)
          with s2 | s2
        · unfold uninitCopyRange at hu2
          by_cases ha : ((live rhs).drop v.size_).any ops.copyFails = true
          · rw [if_pos ha] at hu2
            show v.Capacity ≤ s2.length
            rw [← Except.error.inj hu2]
            exact le_of_eq hcr.symm
          · rw [if_neg ha] at hu2
            exact absurd hu2 (by simp)
        · unfold uninitCopyRange at hu2
          by_cases ha : ((live rhs).drop v.size_).any ops.copyFails = true
          · rw [if_pos ha] at hu2
            exact absurd hu2 (by simp)
          · rw [if_neg ha] at hu2
            show v.Capacity ≤ s2.length
            rw [← Except.ok.inj hu2, fillRange_length]
            exact le_of_eq hcr.symm

/-- `Resize` never shrinks the capacity, throw or not. -/
theorem resize_capMono (ops : Ops α) (dflt : Option α) (n : Nat)
    (v : Vector α) : capMono v (Vector.Resize ops dflt n v) := by
  unfold Vector.Resize
  by_cases he : n = v.size_
  · rw [if_pos he]
    show v.Capacity ≤ v.Capacity
    exact le_rfl
  · rw [if_neg he]
    by_cases hlt : n < v.size_
    · rw [if_pos hlt]
      show v.Capacity ≤ (setNoneRange v.slots n (v.size_ - n)).length
      rw [setNoneRange_length]
      exact le_rfl
    · rw [if_neg hlt]
      have hr := reserve_capMono ops n v
      rcases hres : Vector.Reserve ops n v with e | w
      · rw [hres] at hr
        exact hr
      · rw [hres] at hr
        cases dflt with
        | none => exact hr
        | some d =>
          show v.Capacity ≤ (fillRange w.slots w.size_
            (List.replicate (n - w.size_) d)).length
          rw [fillRange_length]
          exact hr

/-- The length of storage freshly allocated by the growth policy when the
buffer was full. -/
theorem mkSlots_full_length (v : Vector α) (L : List α)
    (hL : L.length ≤ v.size_ + 1) (hfull : v.size_ = v.Capacity) :
    (mkSlots L (newCapOf v)).length =
      if v.Capacity = 0 then 1 else 2 * v.Capacity := by
  unfold mkSlots newCapOf
  rw [← hfull]
  simp only [List.length_append, List.length_map, List.length_replicate]
  by_cases hz : v.size_ = 0
  · rw [if_pos hz, if_pos hz]
    refine Nat.add_sub_cancel' ?_
    rw [hz] at hL
    exact hL
  · rw [if_neg hz, if_neg hz]
    have h1 : L.length ≤ v.size_ * 2 := by
      refine le_trans hL ?_
      rw [mul_two]
      exact Nat.add_le_add_left (Nat.one_le_iff_ne_zero.mpr hz) _
    rw [Nat.add_sub_cancel' h1, Nat.mul_comm]

/-- A successful `EmplaceBack` on a full buffer allocates exactly double the
capacity (or capacity 1 from zero). -/
theorem emplaceBack_doubles (ops : Ops α) (x : α) (v w : Vector α)
    (hfull : v.size_ = v.Capacity)
    (h : Vector.EmplaceBack ops (some x) v = Except.ok w) :
    w.Capacity = if v.Capacity = 0 then 1 else 2 * v.Capacity := by
  have hll := live_length_le_size v
  unfold Vector.EmplaceBack at h
  rw [if_neg (show ¬ v.size_ < v.Capacity from fun hlt =>
    absurd hfull (Nat.ne_of_lt hlt))] at h
  have h2 : (if useMove ops = true then
      match moveMigrate ops (live v) with
      | Except.error k => Except.error (huskState ops v k)
      | Except.ok l =>
        Except.ok (⟨mkSlots (l ++ [x]) (newCapOf v), v.size_ + 1⟩ : Vector α)
    else if (live v).any ops.copyFails = true then Except.error v
    else Except.ok ⟨mkSlots (live v ++ [x]) (newCapOf v), v.size_ + 1⟩) =
      Except.ok w := h
  by_cases hu : useMove ops = true
  · rw [if_pos hu] at h2
    rcases hm : moveMigrate ops (live v) with k | l
    · rw [hm] at h2
      simp at h2
    · rw [hm] at h2
      have hl := moveMigrate_ok_eq ops (live v) l hm
      subst hl
      have hw := Except.ok.inj h2
      rw [← hw]
      show (mkSlots (live v ++ [x]) (newCapOf v)).length = _
      exact mkSlots_full_length v _ (by simpa using hll) hfull
  · rw [if_neg hu] at h2
    by_cases ha : (live v).any ops.copyFails = true
    · rw [if_pos ha] at h2
      simp at h2
    · rw [if_neg ha] at h2
      have hw := Except.ok.inj h2
      rw [← hw]
      show (mkSlots (live v ++ [x]) (newCapOf v)).length = _
      exact mkSlots_full_length v _ (by simpa using hll) hfull

/-- A successful `Emplace` on a full buffer allocates exactly double the
capacity (or capacity 1 from zero). -/
theorem emplace_doubles (ops : Ops α) (index : Nat) (mk : Option α)
    (v w : Vector α) (hfull : v.size_ = v.Capacity)
    (h : Vector.Emplace ops index mk v = Except.ok w) :
    w.Capacity = if v.Capacity = 0 then 1 else 2 * v.Capacity := by
  have hll := live_length_le_size v
  unfold Vector.Emplace at h
  rw [if_neg (not_not_intro hfull)] at h
  cases mk with
  | none => simp at h
  | some x =>
    have h2 : (if useMove ops = true then
        match moveMigrate ops ((live v).take index) with
        | Except.error k => Except.error (huskState ops v k)
        | Except.ok p =>
          match moveMigrate ops ((live v).drop index) with
          | Except.error k => Except.error (huskState ops v (index + k))
          | Except.ok s =>
            Except.ok (⟨mkSlots (p ++ x :: s) (newCapOf v), v.size_ + 1⟩ :
              Vector α)
      else if ((live v).take index).any ops.copyFails = true then Except.error v
      else if ((live v).drop index).any ops.copyFails = true then Except.error v
      else Except.ok ⟨mkSlots ((live v).take index ++ x :: (live v).drop index)
        (newCapOf v), v.size_ + 1⟩) = Except.ok w := h
    have hlen : ((live v).take index ++ x :: (live v).drop index).length ≤
        v.size_ + 1 := by
      rw [List.length_append, List.length_cons, List.length_take,
        List.length_drop, ← Nat.add_assoc]
      exact Nat.add_le_add_right
        (le_trans (min_add_sub_le index (live v).length) hll) 1
    by_cases hu : useMove ops = true
    · rw [if_pos hu] at h2
      rcases hm : moveMigrate ops ((live v).take index) with k | p
      · rw [hm] at h2
        simp at h2
      · rw [hm] at h2
        rcases hm2 : moveMigrate ops ((live v).drop index) with k | sfx
        · rw [hm2] at h2
          simp at h2
        · rw [hm2] at h2
          have hp := moveMigrate_ok_eq ops _ p hm
          have hs := moveMigrate_ok_eq ops _ sfx hm2
          subst hp
          subst hs
          have hw := Except.ok.inj h2
          rw [← hw]
          show (mkSlots ((live v).take index ++ x :: (live v).drop index)
            (newCapOf v)).length = _
          exact mkSlots_full_length v _ hlen hfull
    · rw [if_neg hu] at h2
      by_cases h1 : ((live v).take index).any ops.copyFails = true
      · rw [if_pos h1] at h2
        simp at h2
      · rw [if_neg h1] at h2
        by_cases hc2 : ((live v).drop index).any ops.copyFails = true
        · rw [if_pos hc2] at h2
          simp at h2
        · rw [if_neg hc2] at h2
          have hw := Except.ok.inj h2
          rw [← hw]
          show (mkSlots ((live v).take index ++ x :: (live v).drop index)
            (newCapOf v)).length = _
          exact mkSlots_full_length v _ hlen hfull

/-- Claim C4 (amended): when `size == capacity`, a successful append or
insertion (`EmplaceBack`/`Emplace`, to which `PushBack`/`Insert` forward)
allocates exactly double the previous capacity, or capacity 1 when the
previous capacity was zero; and none of the growth, insertion, erasure,
resize, reserve, pop or copy-assignment operations ever decreases the
capacity, whether they succeed or throw.  (Move-assignment and `Swap`
exchange storage with another buffer and are the exceptions that can
decrease capacity, as the counterexample shows.) -/
theorem c4_growth_doubling_and_capacity_monotone :
    (∀ (ops : Ops α) (x : α) (v w : Vector α), v.size_ = v.Capacity →
      Vector.EmplaceBack ops (some x) v = Except.ok w →
      w.Capacity = if v.Capacity = 0 then 1 else 2 * v.Capacity) ∧
    (∀ (ops : Ops α) (index : Nat) (mk : Option α) (v w : Vector α),
      v.size_ = v.Capacity → Vector.Emplace ops index mk v = Except.ok w →
      w.Capacity = if v.Capacity = 0 then 1 else 2 * v.Capacity) ∧
    (∀ (ops : Ops α) (mk : Option α) (v : Vector α),
      capMono v (Vector.EmplaceBack ops mk v)) ∧
    (∀ (ops : Ops α) (index : Nat) (mk : Option α) (v : Vector α),
      capMono v (Vector.Emplace ops index mk v)) ∧
    (∀ (ops : Ops α) (n : Nat) (v : Vector α),
      capMono v (Vector.Reserve ops n v)) ∧
    (∀ (ops : Ops α) (d : Option α) (n : Nat) (v : Vector α),
      capMono v (Vector.Resize ops d n v)) ∧
    (∀ v : Vector α, (Vector.PopBack v).Capacity = v.Capacity) ∧
    (∀ (ops : Ops α) (index : Nat) (v : Vector α),
      capMonoPair v (Vector.Erase ops index v)) ∧
    (∀ (ops : Ops α) (v rhs : Vector α),
      capMono v (copyAssign ops false v rhs)) :=
  ⟨fun ops x v w h1 h2 => emplaceBack_doubles ops x v w h1 h2,
    fun ops index mk v w h1 h2 => emplace_doubles ops index mk v w h1 h2,
    emplaceBack_capMono, emplace_capMono, reserve_capMono, resize_capMono,
    popBack_cap, erase_capMono, copyAssign_capMono⟩

/-- Witness for C4 (amended), at concrete buffers. -/
theorem c4_growth_doubling_and_capacity_monotone_witness :
    ((⟨[some 1, some 5], 2⟩ : Vector Nat).Capacity =
      if (⟨[some 1], 1⟩ : Vector Nat).Capacity = 0 then 1
      else 2 * (⟨[some 1], 1⟩ : Vector Nat).Capacity) ∧
    ((⟨[some 9, some 1], 2⟩ : Vector Nat).Capacity =
      if (⟨[some 1], 1⟩ : Vector Nat).Capacity = 0 then 1
      else 2 * (⟨[some 1], 1⟩ : Vector Nat).Capacity) ∧
    capMono (⟨[some 1], 1⟩ : Vector Nat)
      (Vector.EmplaceBack ops0 (some 5) ⟨[some 1], 1⟩) ∧
    capMono (⟨[some 1], 1⟩ : Vector Nat)
      (Vector.Emplace ops0 0 (some 9) ⟨[some 1], 1⟩) ∧
    capMono (⟨[some 1], 1⟩ : Vector Nat)
      (Vector.Reserve ops0 5 ⟨[some 1], 1⟩) ∧
    capMono (⟨[some 1], 1⟩ : Vector Nat)
      (Vector.Resize ops0 (some 0) 3 ⟨[some 1], 1⟩) ∧
    (Vector.PopBack (⟨[some 1], 1⟩ : Vector Nat)).Capacity =
      (⟨[some 1], 1⟩ : Vector Nat).Capacity ∧
    capMonoPair (⟨[some 1, some 2], 2⟩ : Vector Nat)
      (Vector.Erase ops0 0 ⟨[some 1, some 2], 2⟩) ∧
    capMono (⟨[some 1], 1⟩ : Vector Nat)
      (copyAssign ops0 false ⟨[some 1], 1⟩ ⟨[some 2, some 3], 2⟩) := by
  have h := c4_growth_doubling_and_capacity_monotone (α := Nat)
  exact ⟨h.1 ops0 5 ⟨[some 1], 1⟩ ⟨[some 1, some 5], 2⟩ rfl rfl,
    h.2.1 ops0 0 (some 9) ⟨[some 1], 1⟩ ⟨[some 9, some 1], 2⟩ rfl rfl,
    h.2.2.1 ops0 (some 5) ⟨[some 1], 1⟩,
    h.2.2.2.1 ops0 0 (some 9) ⟨[some 1], 1⟩,
    h.2.2.2.2.1 ops0 5 ⟨[some 1], 1⟩,
    h.2.2.2.2.2.1 ops0 (some 0) 3 ⟨[some 1], 1⟩,
    h.2.2.2.2.2.2.1 ⟨[some 1], 1⟩,
    h.2.2.2.2.2.2.2.1 ops0 0 ⟨[some 1, some 2], 2⟩,
    h.2.2.2.2.2.2.2.2 ops0 ⟨[some 1], 1⟩ ⟨[some 2, some 3], 2⟩⟩

/-- Claim C9: on an empty buffer `PopBack` is a no-op: no assertion fires and
size, capacity and contents are all unchanged. -/
theorem popback_on_empty_is_noop (v : Vector α) (h : v.size_ = 0) :
    Vector.PopBack v = v := by
  simp [Vector.PopBack, h]

/-- Witness for C9 at the default-constructed buffer. -/
theorem popback_on_empty_is_noop_witness :
    Vector.PopBack (emptyVec : Vector Nat) = emptyVec :=
  popback_on_empty_is_noop emptyVec rfl

/-- Claim C10: copy-assigning a buffer to itself and move-assigning a buffer
to itself both hit the `this != &rhs` guard and leave the buffer unchanged
(same size, capacity and element values). -/
theorem self_assign_is_noop (ops : Ops α) (v : Vector α) :
    copyAssign ops true v v = Except.ok v ∧ moveAssign true v v = (v, v) :=
  ⟨rfl, rfl⟩

/-- Counterexample to claim C3 as stated: move-assignment is a swap, so a
source holding `[2, 3]` assigned into a destination holding `[1]` is left
with size 1, not 0. -/
theorem c3_counterexample : (moveAssign false a3 b3).2.Size ≠ 0 := by decide

/-- Claim C3 (amended): move-construction never allocates and leaves the
source empty (`size == 0`, capacity 0); move-assignment between distinct
objects never allocates either, but is an ownership swap: the destination
takes the source's storage and size while the source is left holding the
destination's previous storage and size (so it is empty only if the
destination was). -/
theorem move_ctor_empties_and_move_assign_swaps (v w : Vector α) :
    moveCtor w = (w, emptyVec) ∧ (moveCtor w).2.Size = 0 ∧
      (moveCtor w).2.Capacity = 0 ∧ moveAssign false v w = (w, v) ∧
      (moveAssign false v w).1.Capacity = w.Capacity ∧
      (moveAssign false v w).2.Capacity = v.Capacity :=
  ⟨rfl, rfl, rfl, rfl, rfl, rfl⟩

/-- Counterexample to claim C4 as stated: move-assigning an empty buffer into
a buffer of capacity 2 decreases that buffer's capacity to 0. -/
theorem c4_counterexample :
    Vector.Capacity (moveAssign false a4 (emptyVec : Vector Nat)).1 < a4.Capacity := by
  decide

/-- Claim C1: strong exception safety fails in the code.  On a buffer holding
`[10, 20]` with spare capacity, `Emplace(begin(), args...)` destroys slot 0
(after shifting) before constructing the new element; when that construction
throws, the buffer is left with the same size and capacity but a destroyed
hole at index 0 and shifted contents, not its original values. -/
theorem c1_emplace_not_strongly_safe :
    Vector.Emplace ops0 0 none v1 = Except.error e1 ∧
      e1.Size = v1.Size ∧ e1.Capacity = v1.Capacity ∧
      read e1 0 ≠ read v1 0 ∧ live e1 ≠ live v1 :=
  ⟨rfl, rfl, rfl, by decide, by decide⟩

/-- Claim C8: the invariant (first `size` slots live) fails to be restored
after a failed `Emplace`: the same failing run as in C1 leaves a destroyed
slot inside `[0, size)`. -/
theorem c8_invariant_broken_after_failed_emplace :
    WF v8 ∧ Vector.Emplace ops0 0 none v8 = Except.error e8 ∧ ¬ WF e8 :=
  ⟨by decide, rfl, by decide⟩

/-- Claim C5: the insert-then-erase round trip fails in the code.  With spare
capacity, `Emplace`'s backward shift runs over `[index, size)` ending at
`size + 1`, re-moving the already moved-from last element over the temporary
at slot `size`; for an element type with destructive moves (`ops1`), inserting
`99` at position 1 of `[10, 20, 30]` yields `[10, 99, 20, 0]`, and erasing
position 1 then yields `[10, 20, 0]` — the size is restored but the last
element's value is lost. -/
theorem c5_insert_erase_roundtrip_fails :
    Vector.Insert ops1 1 99 v5 = Except.ok w5 ∧
      Vector.Erase ops1 1 w5 = Except.ok (1, u5) ∧
      WF v5 ∧ u5.Size = v5.Size ∧ live u5 ≠ live v5 :=
  ⟨rfl, rfl, by decide, rfl, by decide⟩

end CppVector
